import Mathlib

/-!
Verification of the core logic of the satellite map downloader
(`src/main.py`, class `SatelliteMapDownloader`).

The Python code works with IEEE doubles; we embed its arithmetic over `ℝ`,
which matches the exact formulas the specification states.  The Python `int()`
conversion truncates toward zero, which we model by `truncR` (floor for
nonnegative arguments, ceiling for negative ones).
-/

open Real

namespace SatMap

/-- Python `int()` applied to a real number: truncation toward zero. -/
noncomputable def truncR (x : ℝ) : ℤ := if 0 ≤ x then ⌊x⌋ else ⌈x⌉

/-- The `bounds` dictionary: keys `north`, `south`, `east`, `west` in degrees. -/
structure BoundingBox where
  north : ℝ
  south : ℝ
  east : ℝ
  west : ℝ

/-- Model of `deg2num(latDeg, lonDeg, zoom)` from `src/main.py` lines 34-40:
`latRad = radians(latDeg)`, `n = 2.0 ** zoom`,
`x = int((lonDeg+180)/360*n)`, `y = int((1-asinh(tan(latRad))/pi)/2*n)`. -/
noncomputable def deg2num (latDeg lonDeg : ℝ) (zoom : ℕ) : ℤ × ℤ :=
  let latRad := latDeg * π / 180
  let n : ℝ := 2 ^ zoom
  (truncR ((lonDeg + 180) / 360 * n),
   truncR ((1 - Real.arsinh (Real.tan latRad) / π) / 2 * n))

/-- Model of `num2deg(x, y, zoom)` from `src/main.py` lines 42-48:
`n = 2.0 ** zoom`, `lonDeg = x/n*360 - 180`,
`latRad = atan(sinh(pi*(1-2*y/n)))`, `latDeg = degrees(latRad)`. -/
noncomputable def num2deg (x y : ℤ) (zoom : ℕ) : ℝ × ℝ :=
  let n : ℝ := 2 ^ zoom
  let lonDeg := (x : ℝ) / n * 360 - 180
  let latRad := Real.arctan (Real.sinh (π * (1 - 2 * (y : ℝ) / n)))
  (latRad * 180 / π, lonDeg)

/-- The horizontal fraction `(lon + 180)/360` scaled by `2^zoom` in `deg2num`. -/
noncomputable def xfrac (lonDeg : ℝ) : ℝ := (lonDeg + 180) / 360

/-- The vertical (Web Mercator) fraction `(1 - asinh(tan(latRad))/pi)/2` in `deg2num`. -/
noncomputable def yfrac (latDeg : ℝ) : ℝ :=
  (1 - Real.arsinh (Real.tan (latDeg * π / 180)) / π) / 2

/-- The latitude `num2deg` assigns to a (real-valued) vertical tile coordinate. -/
noncomputable def latOfRealY (ry : ℝ) (zoom : ℕ) : ℝ :=
  Real.arctan (Real.sinh (π * (1 - 2 * ry / 2 ^ zoom))) * 180 / π

/-- The longitude `num2deg` assigns to a (real-valued) horizontal tile coordinate. -/
noncomputable def lonOfRealX (rx : ℝ) (zoom : ℕ) : ℝ := rx / 2 ^ zoom * 360 - 180

/-- Tile counts `(tilesX, tilesY)` computed in `calculateZoomLvl` and
`downloadArea`: corners via `deg2num` on `(north, west)` and `(south, east)`,
counts `max - min + 1` per axis. -/
noncomputable def tileCounts (bounds : BoundingBox) (zoom : ℕ) : ℤ × ℤ :=
  let p1 := deg2num bounds.north bounds.west zoom
  let p2 := deg2num bounds.south bounds.east zoom
  (p2.1 - p1.1 + 1, p2.2 - p1.2 + 1)

/-- The product `totalTiles = tilesX * tilesY` as in `src/main.py` lines 60-62. -/
noncomputable def totalTiles (bounds : BoundingBox) (zoom : ℕ) : ℤ :=
  (tileCounts bounds zoom).1 * (tileCounts bounds zoom).2

/-- The `for zoom in range(10, 18)` loop of `calculateZoomLvl`, as a fuelled
recursion: `fuel` remaining candidates starting at `z`; exhaustion returns the
fallback `15` (`src/main.py` line 67). -/
noncomputable def zoomSearch (bounds : BoundingBox) (maxTiles : ℤ) : ℕ → ℕ → ℕ
  | 0, _ => 15
  | fuel + 1, z =>
    if totalTiles bounds z ≤ maxTiles then z else zoomSearch bounds maxTiles fuel (z + 1)

/-- Model of `calculateZoomLvl(bounds, maxTiles)` from `src/main.py` lines 50-67.
(The `latDiff`/`lonDiff` locals of the source are computed but never used,
so they are omitted.) -/
noncomputable def calculateZoomLvl (bounds : BoundingBox) (maxTiles : ℤ) : ℕ :=
  zoomSearch bounds maxTiles 8 10

/-- A PIL image as far as this program observes it: `Image.new(mode, (w, h), color)`
or a decoded download. -/
structure PILImage where
  mode : String
  width : ℕ
  height : ℕ
  color : String
deriving DecidableEq

/-- The placeholder tile `Image.new(RGB, (256, 256), lightgray)` returned by
`downloadTile` on failure (`src/main.py` line 87). -/
def placeholderTile : PILImage := ⟨"RGB", 256, 256, "lightgray"⟩

/-- Outcome of one `requests.get` call: either the call raises (network error,
timeout) or an HTTP response with a status code and a body arrives. -/
inductive HttpResult where
  | failure : HttpResult
  | response : ℕ → ℕ → HttpResult

/-- The mutable state set up in `__init__`: maps folder, the `tileServers`
dictionary and the current server selection. -/
structure Downloader where
  mapsFolder : String
  tileServers : List (String × String)
  currentServer : String

/-- The state `__init__` builds (`src/main.py` lines 14-27). -/
def defaultDownloader : Downloader :=
  { mapsFolder := "maps"
    tileServers :=
      [("openstreetmap", "https://tile.openstreetmap.org/{z}/{x}/{y}.png"),
       ("satellite",
        "https://server.arcgisonline.com/ArcGIS/rest/services/World_Imagery/MapServer/tile/{z}/{y}/{x}"),
       ("hybrid", "https://mt1.google.com/vt/lyrs=y&x={x}&y={y}&z={z}"),
       ("googleSat", "https://mt1.google.com/vt/lyrs=s&x={x}&y={y}&z={z}")]
    currentServer := "googleSat" }

/-- URL substitution `template.format(x=x, y=y, z=zoom)` on a template. -/
def formatUrl (tmpl : String) (x y : ℤ) (zoom : ℕ) : String :=
  ((tmpl.replace "{x}" (toString x)).replace "{y}" (toString y)).replace "{z}" (toString zoom)

/-- Model of `downloadTile(x, y, zoom, serverKey)` from `src/main.py` lines 69-87.
The dictionary access `self.tileServers[serverKey]` happens before the
`try` block, so a missing key raises `KeyError` (modelled `Except.error`).
Modelled from the spec: the HTTP transport (`requests`) and image decoding
(`PIL`) are external collaborators, so the outcome of the single GET is the
injected `http` function and decoding is the injected `decode` function;
per the spec, success means a 2xx status with an image-decodable body and
every other outcome raises inside the `try` block, which the handler turns
into the placeholder tile. -/
def downloadTile (d : Downloader) (http : String → HttpResult) (decode : ℕ → Option PILImage)
    (x y : ℤ) (zoom : ℕ) (serverKey : Option String) : Except String PILImage :=
  let key := serverKey.getD d.currentServer
  match d.tileServers.lookup key with
  | none => Except.error key
  | some tmpl =>
    Except.ok <|
      match http (formatUrl tmpl x y zoom) with
      | HttpResult.failure => placeholderTile
      | HttpResult.response status body =>
        if 200 ≤ status ∧ status < 300 then
          match decode body with
          | some img => img
          | none => placeholderTile
        else placeholderTile

/-- The `bounds` sub-dictionary of the metadata `downloadArea` returns. -/
structure BoundsInfo where
  north : ℝ
  south : ℝ
  east : ℝ
  west : ℝ
  requestedNorth : ℝ
  requestedSouth : ℝ
  requestedEast : ℝ
  requestedWest : ℝ

/-- The `imageSize` sub-dictionary of the metadata `downloadArea` returns. -/
structure ImageSize where
  tilesX : ℤ
  tilesY : ℤ
  minX : ℤ
  minY : ℤ
  maxX : ℤ
  maxY : ℤ

/-- The `mapInfo` dictionary `downloadArea` returns (`src/main.py` lines 153-175). -/
structure MapInfo where
  name : String
  imagePath : String
  bounds : BoundsInfo
  zoom : ℕ
  imageSize : ImageSize

/-- Model of `downloadArea(bounds, zoom, mapName)` from `src/main.py` lines 89-185,
restricted to the data it computes and returns.  The tile fetch/paste loop
only affects the saved PNG (file I/O, out of the returned dictionary), so it
does not appear in the result.  `zoom=None` resolves through
`calculateZoomLvl(bounds)` with its default `maxTiles=20`. -/
noncomputable def downloadArea (d : Downloader) (bounds : BoundingBox)
    (zoomArg : Option ℕ) (mapName : String) : MapInfo :=
  let zoom := match zoomArg with
    | none => calculateZoomLvl bounds 20
    | some z => z
  let p1 := deg2num bounds.north bounds.west zoom
  let p2 := deg2num bounds.south bounds.east zoom
  let minX := p1.1
  let minY := p1.2
  let maxX := p2.1
  let maxY := p2.2
  let tilesX := maxX - minX + 1
  let tilesY := maxY - minY + 1
  let q1 := num2deg minX minY zoom
  let q2 := num2deg (maxX + 1) (maxY + 1) zoom
  { name := mapName
    imagePath := d.mapsFolder ++ "/" ++ mapName ++ ".png"
    bounds :=
      { north := q1.1
        south := q2.1
        east := q2.2
        west := q1.2
        requestedNorth := bounds.north
        requestedSouth := bounds.south
        requestedEast := bounds.east
        requestedWest := bounds.west }
    zoom := zoom
    imageSize :=
      { tilesX := tilesX
        tilesY := tilesY
        minX := minX
        minY := minY
        maxX := maxX
        maxY := maxY } }

/-- Python `max()` of a list (left fold; the empty case never occurs in the
modelled calls and is given a junk value). -/
def listMax : List ℝ → ℝ
  | [] => 0
  | x :: xs => xs.foldl max x

/-- Python `min()` of a list (left fold; junk value on the empty list). -/
def listMin : List ℝ → ℝ
  | [] => 0
  | x :: xs => xs.foldl min x

/-- Model of `downloadFromCorners(corners, zoom, mapName)` from `src/main.py`
lines 187-209: reduce the points to their min/max envelope and delegate
to `downloadArea`. -/
noncomputable def downloadFromCorners (d : Downloader) (corners : List (ℝ × ℝ))
    (zoomArg : Option ℕ) (mapName : String) : MapInfo :=
  let lats := corners.map Prod.fst
  let lons := corners.map Prod.snd
  downloadArea d
    { north := listMax lats
      south := listMin lats
      east := listMax lons
      west := listMin lons } zoomArg mapName

/-- Modelled from the spec: the envelope box of a point list, in the words of the
spec for `downloadFromCorners` — "{north = max lat, south = min lat,
east = max lon, west = min lon}". -/
noncomputable def envelopeBox (points : List (ℝ × ℝ)) : BoundingBox :=
  { north := listMax (points.map Prod.fst)
    south := listMin (points.map Prod.fst)
    east := listMax (points.map Prod.snd)
    west := listMin (points.map Prod.snd) }

/-- Modelled from the spec: the claimed `deg2num` formula with mathematical
floor in both components — "x = floor((lon + 180) / 360 × 2^zoom);
y = floor((1 − asinh(tan(lat_in_radians)) / π) / 2 × 2^zoom)". -/
noncomputable def deg2numFloor (latDeg lonDeg : ℝ) (zoom : ℕ) : ℤ × ℤ :=
  let latRad := latDeg * π / 180
  let n : ℝ := 2 ^ zoom
  (⌊(lonDeg + 180) / 360 * n⌋,
   ⌊(1 - Real.arsinh (Real.tan latRad) / π) / 2 * n⌋)

/-! ### Unfolding lemmas -/

theorem deg2num_def (latDeg lonDeg : ℝ) (zoom : ℕ) :
    deg2num latDeg lonDeg zoom =
      (truncR (xfrac lonDeg * 2 ^ zoom), truncR (yfrac latDeg * 2 ^ zoom)) := rfl

theorem num2deg_def (x y : ℤ) (zoom : ℕ) :
    num2deg x y zoom = (latOfRealY (y : ℝ) zoom, lonOfRealX (x : ℝ) zoom) := rfl

theorem totalTiles_eq (bounds : BoundingBox) (zoom : ℕ) :
    totalTiles bounds zoom =
      (truncR (xfrac bounds.east * 2 ^ zoom) - truncR (xfrac bounds.west * 2 ^ zoom) + 1) *
        (truncR (yfrac bounds.south * 2 ^ zoom) - truncR (yfrac bounds.north * 2 ^ zoom) + 1) :=
  rfl

/-! ### Properties of truncation toward zero -/

theorem truncR_of_nonneg {x : ℝ} (h : 0 ≤ x) : truncR x = ⌊x⌋ := if_pos h

theorem truncR_of_neg {x : ℝ} (h : x < 0) : truncR x = ⌈x⌉ := if_neg (not_le.mpr h)

theorem truncR_intCast (m : ℤ) : truncR (m : ℝ) = m := by
  unfold truncR
  split <;> simp

theorem truncR_mono {x y : ℝ} (h : x ≤ y) : truncR x ≤ truncR y := by
  unfold truncR
  split
  · split
    · exact Int.floor_mono h
    · linarith
  · split
    · have h1 : ⌈x⌉ ≤ (0 : ℤ) := Int.ceil_le.mpr (by simpa using le_of_not_le (by assumption))
      have h2 : (0 : ℤ) ≤ ⌊y⌋ := Int.floor_nonneg.mpr (by assumption)
      omega
    · exact Int.ceil_mono h

theorem truncR_two_mul_ge_of_nonneg {x : ℝ} (h : 0 ≤ x) : 2 * truncR x ≤ truncR (2 * x) := by
  rw [truncR_of_nonneg h, truncR_of_nonneg (by linarith)]
  refine Int.le_floor.mpr ?_
  push_cast
  nlinarith [Int.floor_le x]

theorem truncR_two_mul_le_of_nonneg {x : ℝ} (h : 0 ≤ x) : truncR (2 * x) ≤ 2 * truncR x + 1 := by
  rw [truncR_of_nonneg h, truncR_of_nonneg (by linarith)]
  have h1 : (2 : ℝ) * x < 2 * ⌊x⌋ + 2 := by nlinarith [Int.lt_floor_add_one x]
  have h2 : ⌊(2 : ℝ) * x⌋ < 2 * ⌊x⌋ + 2 := by
    refine Int.floor_lt.mpr ?_
    push_cast
    linarith
  omega

theorem truncR_two_mul_ge_of_neg {x : ℝ} (h : x < 0) : 2 * truncR x - 1 ≤ truncR (2 * x) := by
  rw [truncR_of_neg h, truncR_of_neg (by linarith)]
  have h1 : (2 : ℝ) * ⌈x⌉ - 2 < 2 * x := by nlinarith [Int.ceil_lt_add_one x]
  have h2 : 2 * ⌈x⌉ - 2 < ⌈(2 : ℝ) * x⌉ := by
    refine Int.lt_ceil.mpr ?_
    push_cast
    linarith
  omega

theorem truncR_two_mul_le_of_neg {x : ℝ} (h : x < 0) : truncR (2 * x) ≤ 2 * truncR x := by
  rw [truncR_of_neg h, truncR_of_neg (by linarith)]
  refine Int.ceil_le.mpr ?_
  push_cast
  nlinarith [Int.le_ceil x]

/-- Doubling the scale cannot shrink a truncated difference: the core
monotonicity fact behind the tile-count growth of the zoom selector. -/
theorem truncR_diff_double {u v : ℝ} (h : v ≤ u) :
    truncR u - truncR v ≤ truncR (2 * u) - truncR (2 * v) := by
  have m1 : truncR v ≤ truncR u := truncR_mono h
  have m2 : truncR (2 * v) ≤ truncR (2 * u) := truncR_mono (by linarith)
  rcases eq_or_lt_of_le m1 with heq | hlt
  · omega
  · rcases le_or_lt 0 v with hv | hv
    · have a1 := truncR_two_mul_ge_of_nonneg (le_trans hv h)
      have a2 := truncR_two_mul_le_of_nonneg hv
      omega
    · rcases le_or_lt 0 u with hu | hu
      · have a1 := truncR_two_mul_ge_of_nonneg hu
        have a2 := truncR_two_mul_le_of_neg hv
        omega
      · have a1 := truncR_two_mul_ge_of_neg hu
        have a2 := truncR_two_mul_le_of_neg hv
        omega

/-- Per-axis tile count `truncR(q·2^z) - truncR(p·2^z) + 1` does not decrease
when the zoom rises by one. -/
theorem axisCount_step {p q : ℝ} (h : p ≤ q) (z : ℕ) :
    truncR (q * 2 ^ z) - truncR (p * 2 ^ z) + 1 ≤
      truncR (q * 2 ^ (z + 1)) - truncR (p * 2 ^ (z + 1)) + 1 := by
  have hd := truncR_diff_double
    (mul_le_mul_of_nonneg_right h (by positivity : (0 : ℝ) ≤ 2 ^ z))
  have e1 : q * 2 ^ (z + 1) = 2 * (q * 2 ^ z) := by ring
  have e2 : p * 2 ^ (z + 1) = 2 * (p * 2 ^ z) := by ring
  rw [e1, e2]
  omega

theorem axisCount_pos {p q : ℝ} (h : p ≤ q) (z : ℕ) :
    1 ≤ truncR (q * 2 ^ z) - truncR (p * 2 ^ z) + 1 := by
  have := truncR_mono (mul_le_mul_of_nonneg_right h (by positivity : (0 : ℝ) ≤ 2 ^ z))
  omega

/-! ### Properties of the projection -/

theorem latRad_lt {lat : ℝ} (h : lat < 90) : lat * π / 180 < π / 2 := by
  nlinarith [Real.pi_pos]

theorem neg_lt_latRad {lat : ℝ} (h : -90 < lat) : -(π / 2) < lat * π / 180 := by
  nlinarith [Real.pi_pos]

/-- Latitude-in-degrees `tan` is monotone on `(-90, 90)`. -/
theorem tan_deg_mono {a b : ℝ} (ha : -90 < a) (hb : b < 90) (hab : a ≤ b) :
    Real.tan (a * π / 180) ≤ Real.tan (b * π / 180) := by
  rcases eq_or_lt_of_le hab with rfl | h
  · exact le_refl _
  · refine le_of_lt (Real.tan_lt_tan_of_lt_of_lt_pi_div_two (neg_lt_latRad ha) (latRad_lt hb) ?_)
    nlinarith [Real.pi_pos]

/-- The Mercator vertical fraction `yfrac` is antitone in the latitude. -/
theorem yfrac_le_yfrac {a b : ℝ} (ha : -90 < a) (hb : b < 90) (hab : a ≤ b) :
    yfrac b ≤ yfrac a := by
  unfold yfrac
  have h1 : Real.arsinh (Real.tan (a * π / 180)) ≤ Real.arsinh (Real.tan (b * π / 180)) :=
    Real.arsinh_le_arsinh.mpr (tan_deg_mono ha hb hab)
  have h2 := (div_le_div_right Real.pi_pos).mpr h1
  linarith

/-- Below the Web Mercator latitude limit the vertical fraction is nonnegative. -/
theorem yfrac_nonneg {lat : ℝ} (hdom : Real.tan (lat * π / 180) ≤ Real.sinh π) :
    0 ≤ yfrac lat := by
  unfold yfrac
  have h1 : Real.arsinh (Real.tan (lat * π / 180)) ≤ π := by
    have := Real.arsinh_le_arsinh.mpr hdom
    rwa [Real.arsinh_sinh] at this
  have h2 : Real.arsinh (Real.tan (lat * π / 180)) / π ≤ 1 :=
    (div_le_one Real.pi_pos).mpr h1
  linarith

/-- Above the opposite Web Mercator limit the vertical fraction is below one. -/
theorem yfrac_lt_one {lat : ℝ} (hdom : -Real.sinh π < Real.tan (lat * π / 180)) :
    yfrac lat < 1 := by
  unfold yfrac
  have h1 : -π < Real.arsinh (Real.tan (lat * π / 180)) := by
    have := Real.arsinh_lt_arsinh.mpr hdom
    rwa [← Real.sinh_neg, Real.arsinh_sinh] at this
  have h2 : (-1 : ℝ) < Real.arsinh (Real.tan (lat * π / 180)) / π := by
    rw [lt_div_iff Real.pi_pos]
    linarith
  linarith

theorem xfrac_nonneg {lon : ℝ} (h : -180 ≤ lon) : 0 ≤ xfrac lon := by
  unfold xfrac
  linarith

theorem xfrac_lt_one {lon : ℝ} (h : lon < 180) : xfrac lon < 1 := by
  unfold xfrac
  linarith

theorem xfrac_mono {a b : ℝ} (h : a ≤ b) : xfrac a ≤ xfrac b := by
  unfold xfrac
  linarith

/-- The latitude `num2deg` computes is antitone in the vertical coordinate. -/
theorem latOfRealY_antitone {r s : ℝ} (h : r ≤ s) (z : ℕ) :
    latOfRealY s z ≤ latOfRealY r z := by
  unfold latOfRealY
  have hn : (0 : ℝ) < 2 ^ z := by positivity
  have h1 : π * (1 - 2 * s / 2 ^ z) ≤ π * (1 - 2 * r / 2 ^ z) := by
    have hdiv : 2 * r / 2 ^ z ≤ 2 * s / 2 ^ z :=
      (div_le_div_right hn).mpr (by linarith)
    exact mul_le_mul_of_nonneg_left (by linarith) (le_of_lt Real.pi_pos)
  have h2 := Real.sinh_le_sinh.mpr h1
  have h3 := Real.arctan_strictMono.monotone h2
  have h4 := mul_le_mul_of_nonneg_right h3 (by norm_num : (0 : ℝ) ≤ 180)
  exact (div_le_div_right Real.pi_pos).mpr h4

/-- The longitude `num2deg` computes is monotone in the horizontal coordinate. -/
theorem lonOfRealX_mono {r s : ℝ} (h : r ≤ s) (z : ℕ) :
    lonOfRealX r z ≤ lonOfRealX s z := by
  unfold lonOfRealX
  have hn : (0 : ℝ) < 2 ^ z := by positivity
  have := (div_le_div_right hn).mpr h
  nlinarith

/-- The latitude of `num2deg` undoes the vertical projection of `deg2num` at
the exact (unrounded) coordinate, for latitudes strictly between the poles. -/
theorem latOfRealY_yfrac {lat : ℝ} (h1 : -90 < lat) (h2 : lat < 90) (z : ℕ) :
    latOfRealY (yfrac lat * 2 ^ z) z = lat := by
  have hn : (2 : ℝ) ^ z ≠ 0 := by positivity
  have hπ : π ≠ 0 := Real.pi_ne_zero
  have key : π * (1 - 2 * (yfrac lat * 2 ^ z) / 2 ^ z)
      = Real.arsinh (Real.tan (lat * π / 180)) := by
    unfold yfrac
    field_simp
    ring
  calc latOfRealY (yfrac lat * 2 ^ z) z
      = Real.arctan (Real.sinh (π * (1 - 2 * (yfrac lat * 2 ^ z) / 2 ^ z))) * 180 / π := rfl
    _ = Real.arctan (Real.tan (lat * π / 180)) * 180 / π := by
        rw [key, Real.sinh_arsinh]
    _ = (lat * π / 180) * 180 / π := by
        rw [Real.arctan_tan (neg_lt_latRad h1) (latRad_lt h2)]
    _ = lat := by field_simp

/-- The longitude of `num2deg` undoes the horizontal projection of `deg2num`
at the exact (unrounded) coordinate. -/
theorem lonOfRealX_xfrac (lon : ℝ) (z : ℕ) : lonOfRealX (xfrac lon * 2 ^ z) z = lon := by
  have hn : (2 : ℝ) ^ z ≠ 0 := by positivity
  unfold lonOfRealX xfrac
  field_simp
  ring

/-! ### The zoom-selection loop -/

/-- If every candidate in the window fails the budget, the loop falls off the
end and returns the fallback `15`. -/
theorem zoomSearch_fallback (bounds : BoundingBox) (maxTiles : ℤ) :
    ∀ fuel z₀ : ℕ, (∀ k, k < fuel → maxTiles < totalTiles bounds (z₀ + k)) →
      zoomSearch bounds maxTiles fuel z₀ = 15 := by
  intro fuel
  induction fuel with
  | zero => intro z₀ _; rfl
  | succ f ih =>
    intro z₀ h
    have h0 : maxTiles < totalTiles bounds z₀ := by simpa using h 0 (Nat.succ_pos f)
    show (if totalTiles bounds z₀ ≤ maxTiles then z₀
          else zoomSearch bounds maxTiles f (z₀ + 1)) = 15
    rw [if_neg (not_le.mpr h0)]
    refine ih (z₀ + 1) ?_
    intro k hk
    have := h (k + 1) (by omega)
    rwa [show z₀ + (k + 1) = z₀ + 1 + k by omega] at this

/-- If some candidate in the window meets the budget, the loop returns the
first such candidate. -/
theorem zoomSearch_first (bounds : BoundingBox) (maxTiles : ℤ) :
    ∀ fuel z₀ : ℕ, (∃ k, k < fuel ∧ totalTiles bounds (z₀ + k) ≤ maxTiles) →
      ∃ j, j < fuel ∧ zoomSearch bounds maxTiles fuel z₀ = z₀ + j ∧
        totalTiles bounds (z₀ + j) ≤ maxTiles ∧
        ∀ i, i < j → maxTiles < totalTiles bounds (z₀ + i) := by
  intro fuel
  induction fuel with
  | zero =>
    rintro z₀ ⟨k, hk, -⟩
    exact absurd hk (Nat.not_lt_zero k)
  | succ f ih =>
    rintro z₀ ⟨k, hk, hle⟩
    by_cases h0 : totalTiles bounds z₀ ≤ maxTiles
    · refine ⟨0, Nat.succ_pos f, ?_, by simpa using h0, by omega⟩
      show (if totalTiles bounds z₀ ≤ maxTiles then z₀
            else zoomSearch bounds maxTiles f (z₀ + 1)) = z₀ + 0
      rw [if_pos h0]
      omega
    · have hk0 : k ≠ 0 := by
        rintro rfl
        exact h0 (by simpa using hle)
      obtain ⟨j, hj, heq, hle2, hmin⟩ := ih (z₀ + 1)
        ⟨k - 1, by omega, by rwa [show z₀ + 1 + (k - 1) = z₀ + k by omega]⟩
      refine ⟨j + 1, by omega, ?_, by rwa [show z₀ + (j + 1) = z₀ + 1 + j by omega], ?_⟩
      · show (if totalTiles bounds z₀ ≤ maxTiles then z₀
              else zoomSearch bounds maxTiles f (z₀ + 1)) = z₀ + (j + 1)
        rw [if_neg h0, heq]
        omega
      · intro i hi
        match i with
        | 0 => simpa using not_le.mp h0
        | i' + 1 =>
          have := hmin i' (by omega)
          rwa [show z₀ + 1 + i' = z₀ + (i' + 1) by omega] at this

/-! ### Claims about the coordinate transform -/

/-- Claim C1, amended: for every zoom and every `(lat, lon)` with `lat` in
`(-90, 90)`, `lon ≥ -180`, and `tan(lat·π/180) ≤ sinh(π)` (latitude at most
the Web Mercator limit, about 85.051°), `deg2num` returns exactly the pair of
floors the spec states.  In general `deg2num` applies Python `int()`, i.e.
truncation toward zero, which differs from the floor once a projected value
is negative and fractional. -/
theorem claim_C1_deg2num_eq_floor (lat lon : ℝ) (z : ℕ)
    (h1 : -90 < lat) (h2 : lat < 90) (h3 : -180 ≤ lon)
    (hdom : Real.tan (lat * π / 180) ≤ Real.sinh π) :
    deg2num lat lon z = deg2numFloor lat lon z := by
  have hx : 0 ≤ xfrac lon * 2 ^ z := mul_nonneg (xfrac_nonneg h3) (by positivity)
  have hy : 0 ≤ yfrac lat * 2 ^ z := mul_nonneg (yfrac_nonneg hdom) (by positivity)
  rw [deg2num_def, truncR_of_nonneg hx, truncR_of_nonneg hy]
  rfl

/-- Claim C1 fails as stated: at `lat = 0`, `lon = -360`, `zoom = 0` the code
truncates `-0.5` to `0`, while the floor formula of the spec gives `-1`. -/
theorem claim_C1_counterexample : deg2num 0 (-360) 0 ≠ deg2numFloor 0 (-360) 0 := by
  have e : xfrac (-360 : ℝ) * (2 : ℝ) ^ (0 : ℕ) = -(1 / 2) := by
    unfold xfrac
    norm_num
  have c1 : (deg2num 0 (-360) 0).1 = 0 := by
    show truncR (xfrac (-360 : ℝ) * 2 ^ 0) = 0
    rw [e, truncR_of_neg (by norm_num)]
    rw [Int.ceil_eq_iff]
    constructor <;> norm_num
  have c2 : (deg2numFloor 0 (-360) 0).1 = -1 := by
    show ⌊((-360 : ℝ) + 180) / 360 * 2 ^ (0 : ℕ)⌋ = -1
    rw [Int.floor_eq_iff]
    constructor <;> norm_num
  intro h
  rw [h] at c1
  rw [c1] at c2
  norm_num at c2

/-- Witness for the amended claim C1 at `lat = 0`, `lon = 0`, `zoom = 0`. -/
theorem claim_C1_witness :
    ((-90 : ℝ) < 0 ∧ (0 : ℝ) < 90 ∧ (-180 : ℝ) ≤ 0 ∧
      Real.tan ((0 : ℝ) * π / 180) ≤ Real.sinh π) ∧
    deg2num 0 0 0 = deg2numFloor 0 0 0 := by
  have ht : Real.tan ((0 : ℝ) * π / 180) = 0 := by
    rw [show (0 : ℝ) * π / 180 = 0 by ring, Real.tan_zero]
  have hs : (0 : ℝ) < Real.sinh π := by
    rw [← Real.sinh_zero]
    exact Real.sinh_lt_sinh.mpr Real.pi_pos
  exact ⟨⟨by norm_num, by norm_num, by norm_num, by rw [ht]; linarith⟩,
    claim_C1_deg2num_eq_floor 0 0 0 (by norm_num) (by norm_num) (by norm_num)
      (by rw [ht]; linarith)⟩

/-- Claim C2: for every zoom in `[0, 20]` and tile index `(x, y)` in range,
`num2deg` followed by `deg2num` returns `(x, y)` exactly — the projection
pair is an exact forward/inverse pair at tile-corner granularity. -/
theorem claim_C2_roundtrip (x y : ℤ) (z : ℕ) (hz : z ≤ 20)
    (hx0 : 0 ≤ x) (hx1 : x < 2 ^ z) (hy0 : 0 ≤ y) (hy1 : y < 2 ^ z) :
    deg2num (num2deg x y z).1 (num2deg x y z).2 z = (x, y) := by
  have hn : (2 : ℝ) ^ z ≠ 0 := by positivity
  have hπ : π ≠ 0 := Real.pi_ne_zero
  have comp1 : (num2deg x y z).1 = latOfRealY (y : ℝ) z := rfl
  have comp2 : (num2deg x y z).2 = lonOfRealX (x : ℝ) z := rfl
  have ex : xfrac (lonOfRealX (x : ℝ) z) * 2 ^ z = (x : ℝ) := by
    unfold xfrac lonOfRealX
    field_simp
    ring
  have ey : yfrac (latOfRealY (y : ℝ) z) * 2 ^ z = (y : ℝ) := by
    unfold yfrac latOfRealY
    rw [show Real.arctan (Real.sinh (π * (1 - 2 * (y : ℝ) / 2 ^ z))) * 180 / π * π / 180
          = Real.arctan (Real.sinh (π * (1 - 2 * (y : ℝ) / 2 ^ z))) by field_simp]
    rw [Real.tan_arctan, Real.arsinh_sinh]
    field_simp
    ring
  rw [comp1, comp2, deg2num_def, ex, ey, truncR_intCast, truncR_intCast]

/-- Witness for claim C2 at `x = 0`, `y = 0`, `zoom = 0`. -/
theorem claim_C2_witness :
    ((0 : ℕ) ≤ 20 ∧ (0 : ℤ) ≤ 0 ∧ (0 : ℤ) < 2 ^ (0 : ℕ)) ∧
    deg2num (num2deg 0 0 0).1 (num2deg 0 0 0).2 0 = (0, 0) :=
  ⟨⟨by norm_num, le_rfl, by norm_num⟩,
    claim_C2_roundtrip 0 0 0 (by norm_num) le_rfl (by norm_num) le_rfl (by norm_num)⟩

/-- Claim C7, amended: for every zoom, every `lon` with `-180 ≤ lon < 180`
and every `lat` in `(-90, 90)` strictly above the southern Web Mercator limit
and at most the northern one (`-sinh π < tan(lat·π/180) ≤ sinh π`), the tile
indices returned by `deg2num` satisfy `0 ≤ x < 2^zoom` and `0 ≤ y < 2^zoom`.
At `lon = 180`, which the original claim admits, `x` equals `2^zoom` and
falls outside the grid. -/
theorem claim_C7_range (lat lon : ℝ) (z : ℕ)
    (h1 : -180 ≤ lon) (h2 : lon < 180) (h3 : -90 < lat) (h4 : lat < 90)
    (h5 : -Real.sinh π < Real.tan (lat * π / 180))
    (h6 : Real.tan (lat * π / 180) ≤ Real.sinh π) :
    0 ≤ (deg2num lat lon z).1 ∧ (deg2num lat lon z).1 < 2 ^ z ∧
    0 ≤ (deg2num lat lon z).2 ∧ (deg2num lat lon z).2 < 2 ^ z := by
  have hp : (0 : ℝ) < 2 ^ z := by positivity
  have c1 : (deg2num lat lon z).1 = truncR (xfrac lon * 2 ^ z) := rfl
  have c2 : (deg2num lat lon z).2 = truncR (yfrac lat * 2 ^ z) := rfl
  have hxv : 0 ≤ xfrac lon * 2 ^ z := mul_nonneg (xfrac_nonneg h1) (le_of_lt hp)
  have hyv : 0 ≤ yfrac lat * 2 ^ z := mul_nonneg (yfrac_nonneg h6) (le_of_lt hp)
  rw [c1, c2, truncR_of_nonneg hxv, truncR_of_nonneg hyv]
  refine ⟨Int.floor_nonneg.mpr hxv, ?_, Int.floor_nonneg.mpr hyv, ?_⟩
  · refine Int.floor_lt.mpr ?_
    push_cast
    nlinarith [xfrac_lt_one h2]
  · refine Int.floor_lt.mpr ?_
    push_cast
    nlinarith [yfrac_lt_one h5]

/-- Claim C7 fails as stated: `lat = 0`, `lon = 180` lies in the domain the
claim admits, yet `deg2num 0 180 0 = (1, 0)` and `x = 1` is not below
`2^0 = 1`. -/
theorem claim_C7_counterexample :
    ¬(0 ≤ (deg2num 0 180 0).1 ∧ (deg2num 0 180 0).1 < 2 ^ 0 ∧
      0 ≤ (deg2num 0 180 0).2 ∧ (deg2num 0 180 0).2 < 2 ^ 0) := by
  have c1 : (deg2num 0 180 0).1 = 1 := by
    have e : xfrac (180 : ℝ) * (2 : ℝ) ^ (0 : ℕ) = ((1 : ℤ) : ℝ) := by
      unfold xfrac
      norm_num
    show truncR (xfrac (180 : ℝ) * 2 ^ 0) = 1
    rw [e, truncR_intCast]
  rintro ⟨-, hlt, -, -⟩
  rw [c1] at hlt
  norm_num at hlt

/-- Witness for the amended claim C7 at `lat = 0`, `lon = 0`, `zoom = 0`. -/
theorem claim_C7_witness :
    ((-180 : ℝ) ≤ 0 ∧ (0 : ℝ) < 180 ∧ (-90 : ℝ) < 0 ∧ (0 : ℝ) < 90 ∧
      -Real.sinh π < Real.tan ((0 : ℝ) * π / 180) ∧
      Real.tan ((0 : ℝ) * π / 180) ≤ Real.sinh π) ∧
    (0 ≤ (deg2num 0 0 0).1 ∧ (deg2num 0 0 0).1 < 2 ^ 0 ∧
      0 ≤ (deg2num 0 0 0).2 ∧ (deg2num 0 0 0).2 < 2 ^ 0) := by
  have ht : Real.tan ((0 : ℝ) * π / 180) = 0 := by
    rw [show (0 : ℝ) * π / 180 = 0 by ring, Real.tan_zero]
  have hs : (0 : ℝ) < Real.sinh π := by
    rw [← Real.sinh_zero]
    exact Real.sinh_lt_sinh.mpr Real.pi_pos
  exact ⟨⟨by norm_num, by norm_num, by norm_num, by norm_num,
      by rw [ht]; linarith, by rw [ht]; linarith⟩,
    claim_C7_range 0 0 0 (by norm_num) (by norm_num) (by norm_num) (by norm_num)
      (by rw [ht]; linarith) (by rw [ht]; linarith)⟩

/-! ### Claims about the zoom selector -/

/-- Claim C3: `calculateZoomLvl` returns the first zoom in ascending order
`10..17` whose tile count `(maxX-minX+1)·(maxY-minY+1)` — computed from
`deg2num` on the `(north, west)` and `(south, east)` corners — is at most
`maxTiles`; if no zoom in `10..17` satisfies the budget it returns `15`
unconditionally. -/
theorem claim_C3_calculateZoomLvl (bounds : BoundingBox) (maxTiles : ℤ) :
    ((∃ z, 10 ≤ z ∧ z ≤ 17 ∧ totalTiles bounds z ≤ maxTiles) →
      ∃ z, calculateZoomLvl bounds maxTiles = z ∧ 10 ≤ z ∧ z ≤ 17 ∧
        totalTiles bounds z ≤ maxTiles ∧
        ∀ w, 10 ≤ w → w < z → maxTiles < totalTiles bounds w) ∧
    ((∀ z, 10 ≤ z → z ≤ 17 → maxTiles < totalTiles bounds z) →
      calculateZoomLvl bounds maxTiles = 15) := by
  constructor
  · rintro ⟨z, hz1, hz2, hle⟩
    obtain ⟨j, hj, heq, hle2, hmin⟩ := zoomSearch_first bounds maxTiles 8 10
      ⟨z - 10, by omega, by rwa [show 10 + (z - 10) = z by omega]⟩
    refine ⟨10 + j, heq, by omega, by omega, hle2, ?_⟩
    intro w hw1 hw2
    have := hmin (w - 10) (by omega)
    rwa [show 10 + (w - 10) = w by omega] at this
  · intro h
    exact zoomSearch_fallback bounds maxTiles 8 10
      (fun k hk => h (10 + k) (by omega) (by omega))

/-- Witness for claim C3: with a degenerate box every zoom needs one tile, so
budget 20 selects zoom 10, and budget 0 forces the fallback 15. -/
theorem claim_C3_witness :
    (∃ z, 10 ≤ z ∧ z ≤ 17 ∧ totalTiles ⟨0, 0, 0, 0⟩ z ≤ 20) ∧
    (∃ z, calculateZoomLvl ⟨0, 0, 0, 0⟩ 20 = z ∧ 10 ≤ z ∧ z ≤ 17 ∧
      totalTiles ⟨0, 0, 0, 0⟩ z ≤ 20 ∧
      ∀ w, 10 ≤ w → w < z → 20 < totalTiles ⟨0, 0, 0, 0⟩ w) ∧
    calculateZoomLvl ⟨0, 0, 0, 0⟩ 0 = 15 := by
  have hone : ∀ z : ℕ, totalTiles (⟨0, 0, 0, 0⟩ : BoundingBox) z = 1 := by
    intro z
    rw [totalTiles_eq]
    simp
  have hex : ∃ z, 10 ≤ z ∧ z ≤ 17 ∧ totalTiles (⟨0, 0, 0, 0⟩ : BoundingBox) z ≤ 20 :=
    ⟨10, le_rfl, by norm_num, by rw [hone]; norm_num⟩
  exact ⟨hex, (claim_C3_calculateZoomLvl ⟨0, 0, 0, 0⟩ 20).1 hex,
    (claim_C3_calculateZoomLvl ⟨0, 0, 0, 0⟩ 0).2 (fun z _ _ => by rw [hone]; norm_num)⟩

/-- Claim C8: for a fixed valid bounding box (north above south, east above
west, latitudes strictly between the poles), the total tile count computed by
the range computation of the zoom selector is non-decreasing as zoom increases. -/
theorem claim_C8_tileCount_monotone (bounds : BoundingBox)
    (h1 : -90 < bounds.south) (h2 : bounds.south < bounds.north) (h3 : bounds.north < 90)
    (h4 : bounds.west < bounds.east) (z₁ z₂ : ℕ) (hz : z₁ ≤ z₂) :
    totalTiles bounds z₁ ≤ totalTiles bounds z₂ := by
  have hx : xfrac bounds.west ≤ xfrac bounds.east := xfrac_mono (le_of_lt h4)
  have hy : yfrac bounds.north ≤ yfrac bounds.south := yfrac_le_yfrac h1 h3 (le_of_lt h2)
  have step : ∀ z : ℕ, totalTiles bounds z ≤ totalTiles bounds (z + 1) := by
    intro z
    rw [totalTiles_eq, totalTiles_eq]
    have hX := axisCount_step hx z
    have hY := axisCount_step hy z
    have pX1 := axisCount_pos hx (z + 1)
    have pY0 := axisCount_pos hy z
    exact mul_le_mul hX hY (by omega) (by omega)
  induction z₂, hz using Nat.le_induction with
  | base => exact le_rfl
  | succ n hn ih => exact le_trans ih (step n)

/-- Witness for claim C8 on a concrete box between zooms 3 and 5. -/
theorem claim_C8_witness :
    ((-90 : ℝ) < 0 ∧ (0 : ℝ) < 45 ∧ (45 : ℝ) < 90 ∧ (0 : ℝ) < 45 ∧ (3 : ℕ) ≤ 5) ∧
    totalTiles ⟨45, 0, 45, 0⟩ 3 ≤ totalTiles ⟨45, 0, 45, 0⟩ 5 :=
  ⟨⟨by norm_num, by norm_num, by norm_num, by norm_num, by norm_num⟩,
    claim_C8_tileCount_monotone ⟨45, 0, 45, 0⟩ (by norm_num) (by norm_num) (by norm_num)
      (by norm_num) 3 5 (by norm_num)⟩

/-! ### Claims about the mosaic assembler -/

/-- Claim C4: for every bounding box with `north > south` and `east > west`
inside the domain of the projection and every zoom, the achieved bounds computed by
`downloadArea` — north/west from `num2deg(minX, minY)` and south/east from
`num2deg(maxX+1, maxY+1)` — contain the requested box. -/
theorem claim_C4_containment (d : Downloader) (bounds : BoundingBox) (z : ℕ) (nm : String)
    (h1 : -90 < bounds.south) (h2 : bounds.south < bounds.north) (h3 : bounds.north < 90)
    (h4 : -180 ≤ bounds.west) (h5 : bounds.west < bounds.east)
    (hdom : Real.tan (bounds.north * π / 180) ≤ Real.sinh π) :
    bounds.north ≤ (downloadArea d bounds (some z) nm).bounds.north ∧
    (downloadArea d bounds (some z) nm).bounds.south ≤ bounds.south ∧
    bounds.east ≤ (downloadArea d bounds (some z) nm).bounds.east ∧
    (downloadArea d bounds (some z) nm).bounds.west ≤ bounds.west := by
  have hp : (0 : ℝ) ≤ 2 ^ z := by positivity
  have hNlow : -90 < bounds.north := by linarith
  have hShigh : bounds.south < 90 := by linarith
  have hyNS : yfrac bounds.north ≤ yfrac bounds.south := yfrac_le_yfrac h1 h3 (le_of_lt h2)
  have hyN0 : 0 ≤ yfrac bounds.north * 2 ^ z := mul_nonneg (yfrac_nonneg hdom) hp
  have hyS0 : 0 ≤ yfrac bounds.south * 2 ^ z :=
    mul_nonneg (le_trans (yfrac_nonneg hdom) hyNS) hp
  have hxW0 : 0 ≤ xfrac bounds.west * 2 ^ z := mul_nonneg (xfrac_nonneg h4) hp
  have hxE0 : 0 ≤ xfrac bounds.east * 2 ^ z :=
    mul_nonneg (xfrac_nonneg (by linarith)) hp
  have eN : (downloadArea d bounds (some z) nm).bounds.north
      = latOfRealY ((truncR (yfrac bounds.north * 2 ^ z) : ℤ) : ℝ) z := rfl
  have eS : (downloadArea d bounds (some z) nm).bounds.south
      = latOfRealY ((truncR (yfrac bounds.south * 2 ^ z) + 1 : ℤ) : ℝ) z := rfl
  have eE : (downloadArea d bounds (some z) nm).bounds.east
      = lonOfRealX ((truncR (xfrac bounds.east * 2 ^ z) + 1 : ℤ) : ℝ) z := rfl
  have eW : (downloadArea d bounds (some z) nm).bounds.west
      = lonOfRealX ((truncR (xfrac bounds.west * 2 ^ z) : ℤ) : ℝ) z := rfl
  refine ⟨?_, ?_, ?_, ?_⟩
  · rw [eN, truncR_of_nonneg hyN0]
    have hfl : ((⌊yfrac bounds.north * 2 ^ z⌋ : ℤ) : ℝ) ≤ yfrac bounds.north * 2 ^ z :=
      Int.floor_le _
    have := latOfRealY_antitone hfl z
    rwa [latOfRealY_yfrac hNlow h3 z] at this
  · rw [eS, truncR_of_nonneg hyS0]
    have hlt : yfrac bounds.south * 2 ^ z ≤ ((⌊yfrac bounds.south * 2 ^ z⌋ + 1 : ℤ) : ℝ) := by
      push_cast
      exact le_of_lt (Int.lt_floor_add_one _)
    have := latOfRealY_antitone hlt z
    rwa [latOfRealY_yfrac h1 hShigh z] at this
  · rw [eE, truncR_of_nonneg hxE0]
    have hlt : xfrac bounds.east * 2 ^ z ≤ ((⌊xfrac bounds.east * 2 ^ z⌋ + 1 : ℤ) : ℝ) := by
      push_cast
      exact le_of_lt (Int.lt_floor_add_one _)
    have := lonOfRealX_mono hlt z
    rwa [lonOfRealX_xfrac bounds.east z] at this
  · rw [eW, truncR_of_nonneg hxW0]
    have hfl : ((⌊xfrac bounds.west * 2 ^ z⌋ : ℤ) : ℝ) ≤ xfrac bounds.west * 2 ^ z :=
      Int.floor_le _
    have := lonOfRealX_mono hfl z
    rwa [lonOfRealX_xfrac bounds.west z] at this

/-- Witness for claim C4 on the box north 45, south 0, east 45, west 0 at zoom 1. -/
theorem claim_C4_witness :
    ((-90 : ℝ) < 0 ∧ (0 : ℝ) < 45 ∧ (45 : ℝ) < 90 ∧ (-180 : ℝ) ≤ 0 ∧ (0 : ℝ) < 45 ∧
      Real.tan ((45 : ℝ) * π / 180) ≤ Real.sinh π) ∧
    ((45 : ℝ) ≤ (downloadArea defaultDownloader ⟨45, 0, 45, 0⟩ (some 1) "t").bounds.north ∧
      (downloadArea defaultDownloader ⟨45, 0, 45, 0⟩ (some 1) "t").bounds.south ≤ 0 ∧
      (45 : ℝ) ≤ (downloadArea defaultDownloader ⟨45, 0, 45, 0⟩ (some 1) "t").bounds.east ∧
      (downloadArea defaultDownloader ⟨45, 0, 45, 0⟩ (some 1) "t").bounds.west ≤ 0) := by
  have hdom : Real.tan ((45 : ℝ) * π / 180) ≤ Real.sinh π := by
    rw [show (45 : ℝ) * π / 180 = π / 4 by ring, Real.tan_pi_div_four]
    have hπ : π < Real.sinh π := Real.self_lt_sinh_iff.mpr Real.pi_pos
    have := Real.pi_gt_three
    linarith
  exact ⟨⟨by norm_num, by norm_num, by norm_num, by norm_num, by norm_num, hdom⟩,
    claim_C4_containment defaultDownloader ⟨45, 0, 45, 0⟩ 1 "t" (by norm_num) (by norm_num)
      (by norm_num) (by norm_num) (by norm_num) hdom⟩

/-! ### Claims about the tile fetcher -/

/-- Claim C5: whenever the HTTP fetch fails in any way — the GET raises, the
status is not 2xx, or the body does not decode as an image — `downloadTile`
returns the solid-color 256×256 placeholder image instead of propagating the
error (given that the server key resolves, which happens before the `try`
block). -/
theorem claim_C5_placeholder (d : Downloader) (http : String → HttpResult)
    (decode : ℕ → Option PILImage) (x y : ℤ) (z : ℕ) (serverKey : Option String)
    (tmpl : String)
    (hkey : d.tileServers.lookup (serverKey.getD d.currentServer) = some tmpl)
    (hfail : http (formatUrl tmpl x y z) = HttpResult.failure ∨
      ∃ s b, http (formatUrl tmpl x y z) = HttpResult.response s b ∧
        (¬(200 ≤ s ∧ s < 300) ∨ decode b = none)) :
    downloadTile d http decode x y z serverKey = Except.ok placeholderTile ∧
    placeholderTile.width = 256 ∧ placeholderTile.height = 256 := by
  refine ⟨?_, rfl, rfl⟩
  rcases hfail with hf | ⟨s, b, heq, hbad⟩
  · simp only [downloadTile, hkey, hf]
  · rcases hbad with hb | hb
    · simp only [downloadTile, hkey, heq, if_neg hb]
    · simp only [downloadTile, hkey, heq, hb, ite_self]

/-- Witness for claim C5: the default server resolves and a raising GET
yields the placeholder. -/
theorem claim_C5_witness :
    defaultDownloader.tileServers.lookup
        ((none : Option String).getD defaultDownloader.currentServer)
      = some "https://mt1.google.com/vt/lyrs=s&x={x}&y={y}&z={z}" ∧
    downloadTile defaultDownloader (fun _ => HttpResult.failure) (fun _ => none) 1 2 3 none
      = Except.ok placeholderTile := by
  have hkey : defaultDownloader.tileServers.lookup
      ((none : Option String).getD defaultDownloader.currentServer)
      = some "https://mt1.google.com/vt/lyrs=s&x={x}&y={y}&z={z}" := by decide
  exact ⟨hkey,
    (claim_C5_placeholder defaultDownloader (fun _ => HttpResult.failure) (fun _ => none)
      1 2 3 none _ hkey (Or.inl rfl)).1⟩

/-- Claim C9: a server key that is none of the configured names
(`openstreetmap`, `satellite`, `hybrid`, `googleSat`) makes `downloadTile`
raise `KeyError` before any HTTP request is issued — the result is the error,
not the placeholder, and it is the same for every possible HTTP outcome and
decoder, so no request is consulted. -/
theorem claim_C9_keyError (key : String)
    (hk : key ≠ "openstreetmap" ∧ key ≠ "satellite" ∧ key ≠ "hybrid" ∧ key ≠ "googleSat") :
    ∀ (http : String → HttpResult) (decode : ℕ → Option PILImage) (x y : ℤ) (z : ℕ),
      downloadTile defaultDownloader http decode x y z (some key) = Except.error key := by
  intro http decode x y z
  obtain ⟨k1, k2, k3, k4⟩ := hk
  have h1 : (key == "openstreetmap") = false := beq_eq_false_iff_ne.mpr k1
  have h2 : (key == "satellite") = false := beq_eq_false_iff_ne.mpr k2
  have h3 : (key == "hybrid") = false := beq_eq_false_iff_ne.mpr k3
  have h4 : (key == "googleSat") = false := beq_eq_false_iff_ne.mpr k4
  simp only [downloadTile, defaultDownloader, Option.getD_some, List.lookup, h1, h2, h3, h4]

/-- Witness for claim C9 with the unconfigured key `bing`. -/
theorem claim_C9_witness :
    ("bing" ≠ "openstreetmap" ∧ "bing" ≠ "satellite" ∧ "bing" ≠ "hybrid" ∧
      "bing" ≠ "googleSat") ∧
    downloadTile defaultDownloader (fun _ => HttpResult.response 200 0)
      (fun _ => some placeholderTile) 0 0 0 (some "bing") = Except.error "bing" := by
  have hk : "bing" ≠ "openstreetmap" ∧ "bing" ≠ "satellite" ∧ "bing" ≠ "hybrid" ∧
      "bing" ≠ "googleSat" := by decide
  exact ⟨hk, claim_C9_keyError "bing" hk (fun _ => HttpResult.response 200 0)
    (fun _ => some placeholderTile) 0 0 0⟩

/-! ### Claims about the orchestrator -/

/-- Claim C10: when `downloadArea` is called with `zoom = None`, the zoom it
uses is `calculateZoomLvl(bounds)` with the fixed default budget of 20 tiles;
the signature of `downloadArea` offers no parameter to override that budget. -/
theorem claim_C10_default_budget (d : Downloader) (bounds : BoundingBox) (nm : String) :
    (downloadArea d bounds none nm).zoom = calculateZoomLvl bounds 20 := rfl

/-- Claim C6: `downloadFromCorners` on a non-empty point list produces the
same result as `downloadArea` on the min/max envelope box of the points; in
particular, on the 4 corners of a known box it agrees with `downloadArea` on
that box directly (hence the same tile range). -/
theorem claim_C6_corner_reduction (d : Downloader) (zoomArg : Option ℕ) (nm : String) :
    (∀ corners : List (ℝ × ℝ), corners ≠ [] →
      downloadFromCorners d corners zoomArg nm
        = downloadArea d (envelopeBox corners) zoomArg nm) ∧
    (∀ n s e w : ℝ, s ≤ n → w ≤ e →
      downloadFromCorners d [(n, w), (n, e), (s, e), (s, w)] zoomArg nm
        = downloadArea d ⟨n, s, e, w⟩ zoomArg nm) := by
  constructor
  · intro corners _
    rfl
  · intro n s e w hsn hwe
    show downloadArea d
      ⟨listMax [n, n, s, s], listMin [n, n, s, s], listMax [w, e, e, w], listMin [w, e, e, w]⟩
      zoomArg nm = downloadArea d ⟨n, s, e, w⟩ zoomArg nm
    have hmax1 : listMax [n, n, s, s] = n := by
      show max (max (max n n) s) s = n
      rw [max_self, max_eq_left hsn, max_eq_left hsn]
    have hmin1 : listMin [n, n, s, s] = s := by
      show min (min (min n n) s) s = s
      rw [min_self, min_eq_right hsn, min_self]
    have hmax2 : listMax [w, e, e, w] = e := by
      show max (max (max w e) e) w = e
      rw [max_eq_right hwe, max_self, max_eq_left hwe]
    have hmin2 : listMin [w, e, e, w] = w := by
      show min (min (min w e) e) w = w
      rw [min_eq_left hwe, min_eq_left hwe, min_self]
    rw [hmax1, hmin1, hmax2, hmin2]

/-- Witness for claim C6: a singleton point list, and the four corners of the
unit box. -/
theorem claim_C6_witness :
    ([((0 : ℝ), (0 : ℝ))] ≠ ([] : List (ℝ × ℝ)) ∧ (0 : ℝ) ≤ 1) ∧
    downloadFromCorners defaultDownloader [((0 : ℝ), (0 : ℝ))] (some 5) "t2"
      = downloadArea defaultDownloader (envelopeBox [((0 : ℝ), (0 : ℝ))]) (some 5) "t2" ∧
    downloadFromCorners defaultDownloader [((1 : ℝ), (0 : ℝ)), (1, 1), (0, 1), (0, 0)]
        (some 5) "t2"
      = downloadArea defaultDownloader ⟨1, 0, 1, 0⟩ (some 5) "t2" :=
  ⟨⟨by simp, zero_le_one⟩,
    (claim_C6_corner_reduction defaultDownloader (some 5) "t2").1 _ (by simp),
    (claim_C6_corner_reduction defaultDownloader (some 5) "t2").2 1 0 1 0
      zero_le_one zero_le_one⟩

end SatMap
